import Mathlib

/-!
# Verification of the `downloader` package of ec-cli

This development shallowly embeds `internal/downloader/downloader.go`:

* `isSecure` — the URL transport-security classifier, built from
  `strings.HasPrefix(url, "http:")` and the anchored regular expression
  `^[A-Za-z0-9]*::http:` (the package-level `insecure` matcher);
* `Download` — the dispatcher facade: reject insecure sources, then select
  the go-gather engine (when the `UseGoGather` switch is on), else a
  context-injected test engine (attached with `WithDownloadImpl`), else the
  default Conftest engine, whose invocation is guarded by `dlMutex`;
* a small interleaving model of the `dlMutex.Lock()` / `defer dlMutex.Unlock()`
  discipline around the default engine call.

Strings are handled through their character lists (`String.data`), so that
the prefix and regular-expression matching can be reasoned about by
structural induction.
-/

namespace ECCli.Downloader

/-- Character class of the regular expression bracket `[A-Za-z0-9]` in the
`insecure` matcher: ASCII upper-case letters, lower-case letters and digits. -/
def isAlnum (c : Char) : Bool :=
  (('A' ≤ c) && (c ≤ 'Z')) || (('a' ≤ c) && (c ≤ 'z')) || (('0' ≤ c) && (c ≤ '9'))

/-- `startsWithL p l` embeds `strings.HasPrefix(l, p)` on character lists:
`true` exactly when `p` is an initial segment of `l`. -/
def startsWithL : List Char → List Char → Bool
  | [], _ => true
  | _ :: _, [] => false
  | p :: ps, c :: cs => (p == c) && startsWithL ps cs

/-- The characters of the literal `"http:"` tested by
`strings.HasPrefix(url, "http:")`. -/
def httpColon : List Char := "http:".data

/-- The characters of the literal `"::http:"` tail of the `insecure`
regular expression `^[A-Za-z0-9]*::http:`. -/
def wrapHttp : List Char := "::http:".data

/-- Anchored matcher for the regular expression `^[A-Za-z0-9]*::http:`
(the package-level `insecure` variable): the match succeeds at the start of
the input after consuming zero or more alphanumeric characters, followed by
the literal `::http:`. `insecure.MatchString url` is
`insecureMatchString url.data`. -/
def insecureMatchString : List Char → Bool
  | [] => startsWithL wrapHttp []
  | c :: cs => startsWithL wrapHttp (c :: cs) || (isAlnum c && insecureMatchString cs)

/-- `isSecure` from `downloader.go`: a url is secure when it neither starts
with the literal `http:` nor matches `^[A-Za-z0-9]*::http:`. -/
def isSecure (url : String) : Bool :=
  !(startsWithL httpColon url.data) && !(insecureMatchString url.data)

theorem httpColon_eq : httpColon = ['h', 't', 't', 'p', ':'] := rfl

theorem wrapHttp_eq : wrapHttp = [':', ':', 'h', 't', 't', 'p', ':'] := rfl

/-- The prefix matcher agrees with the list-append characterisation. -/
theorem startsWithL_iff (p l : List Char) :
    startsWithL p l = true ↔ ∃ t, l = p ++ t := by
  induction p generalizing l with
  | nil => simp [startsWithL]
  | cons p₀ ps ih =>
    cases l with
    | nil =>
      simp [startsWithL]
    | cons c cs =>
      simp only [startsWithL, Bool.and_eq_true, beq_iff_eq, ih, List.cons_append,
        List.cons.injEq]
      constructor
      · rintro ⟨h₁, t, h₂⟩
        exact ⟨t, h₁.symm, h₂⟩
      · rintro ⟨t, h₁, h₂⟩
        exact ⟨h₁.symm, t, h₂⟩

/-- The anchored regular-expression matcher agrees with its mathematical
reading: some (possibly empty) alphanumeric scheme, then the literal
`::http:`, then anything. -/
theorem insecureMatchString_iff (l : List Char) :
    insecureMatchString l = true ↔
      ∃ s t, l = s ++ wrapHttp ++ t ∧ ∀ c ∈ s, isAlnum c = true := by
  induction l with
  | nil =>
    constructor
    · intro h
      exact absurd h (by decide)
    · rintro ⟨s, t, h, -⟩
      cases s <;> simp [wrapHttp_eq] at h
  | cons c cs ih =>
    simp only [insecureMatchString, Bool.or_eq_true, Bool.and_eq_true,
      startsWithL_iff, ih]
    constructor
    · rintro (⟨t, h⟩ | ⟨ha, s, t, h, hs⟩)
      · exact ⟨[], t, by simpa using h, by simp⟩
      · refine ⟨c :: s, t, by simp [h], ?_⟩
        intro x hx
        rcases List.mem_cons.mp hx with rfl | hx
        · exact ha
        · exact hs x hx
    · rintro ⟨s, t, h, hs⟩
      cases s with
      | nil =>
        exact Or.inl ⟨t, by simpa using h⟩
      | cons s₀ s₁ =>
        simp only [List.cons_append, List.cons.injEq] at h
        obtain ⟨h₀, h⟩ := h
        subst h₀
        refine Or.inr ⟨hs c (by simp), s₁, t, h, ?_⟩
        intro x hx
        exact hs x (List.mem_cons_of_mem _ hx)

/-- Errors produced by `Download`: either the `fmt.Errorf` value built for an
insecure source, or an error value coming from the selected engine, carried
unchanged (the constructor `engine` is the identity injection of the engine
error into the facade's error domain). `E` is the opaque type of
engine-produced error values. -/
inductive DlError (E : Type) where
  | insecure (url : String)
  | engine (e : E)
deriving DecidableEq

/-- The error text seen by callers (`err.Error()` in Go), given the text
function `textOf` of the opaque engine errors. `fmt.Errorf` renders the
insecure error as its format string with the url substituted. -/
def dlErrText {E : Type} (textOf : E → String) : DlError E → String
  | .insecure url => "attempting to download from insecure source: " ++ url
  | .engine e => textOf e

/-- Observable events of one `Download` call: acquisition and release of
`dlMutex`, and the engine invocations with their arguments. -/
inductive Event where
  | lockAcquire
  | lockRelease
  | callDefault (destDir : String) (urls : List String)
  | callAlternate (url destDir : String)
  | callTest (destDir : String) (urls : List String)
deriving DecidableEq

/-- Is the event an engine invocation (as opposed to a lock event)? -/
def isEngineCall : Event → Bool
  | .callDefault _ _ => true
  | .callAlternate _ _ => true
  | .callTest _ _ => true
  | _ => false

/-- The ambient state a `Download` call reads, with the engines as opaque
functions. `M` is the opaque metadata type, `E` the opaque engine error type.

* `useGoGather` — the value of the `utils.UseGoGather()` switch;
* `testImpl` — the `downloadImpl` attached to the context via
  `WithDownloadImpl`, if any (`ctx.Value(downloadImplKey)`); the function
  takes the destination directory and the url list and returns the error of
  `d.Download(ctx, destDir, urls)`;
* `conftestDownload` — Conftest's `downloader.Download(ctx, destDir, urls)`;
* `gatherFunc` — `gather.Gather(ctx, sourceUrl, destDir)`, returning
  metadata and error. -/
structure DlEnv (M E : Type) where
  useGoGather : Bool
  testImpl : Option (String → List String → Option E)
  conftestDownload : String → List String → Option E
  gatherFunc : String → String → Option M × Option E

/-- `WithDownloadImpl` attaches a download implementation to the context. -/
def WithDownloadImpl {M E : Type} (env : DlEnv M E) (d : String → List String → Option E) :
    DlEnv M E :=
  { env with testImpl := some d }

/-- `Download` from `downloader.go`, returning the metadata, the error and
the trace of lock/engine events (in order):

1. an insecure source fails immediately with the `fmt.Errorf` error and an
   empty trace;
2. if `utils.UseGoGather()` is set, `gatherFunc` is called (this branch is
   chosen even when a test implementation is attached to the context);
3. else an attached `downloadImpl` is called with the singleton url list;
4. else Conftest's downloader is called with the singleton url list, with
   `dlMutex` held around the call (`Lock` / `defer Unlock`).

The `showMsg` flag only controls the printing of the progress message and
has no effect on the result; logging is not modelled. -/
def Download {M E : Type} (env : DlEnv M E) (destDir sourceUrl : String)
    (showMsg : Bool) : Option M × Option (DlError E) × List Event :=
  if isSecure sourceUrl = false then
    (none, some (DlError.insecure sourceUrl), [])
  else if env.useGoGather then
    let r := env.gatherFunc sourceUrl destDir
    (r.1, r.2.map DlError.engine, [Event.callAlternate sourceUrl destDir])
  else
    match env.testImpl with
    | some d =>
        (none, (d destDir [sourceUrl]).map DlError.engine,
          [Event.callTest destDir [sourceUrl]])
    | none =>
        (none, (env.conftestDownload destDir [sourceUrl]).map DlError.engine,
          [Event.lockAcquire, Event.callDefault destDir [sourceUrl],
            Event.lockRelease])

/-!
## Interleaving model of the `dlMutex` discipline

The default-engine closure in `Download` runs
`dlMutex.Lock(); defer dlMutex.Unlock(); downloader.Download(...)`.
We model `n` concurrent callers of that closure: each thread is
before the `Lock` call (`start`), inside the engine invocation with the
mutex held (`locked`), or exited — normally (`done`) or by a panic
(`panicked`); the deferred `Unlock` runs on both exits. The mutex records
which thread holds it, if any. -/

/-- Program counter of one thread running the default-engine closure. -/
inductive ThreadPC where
  | start
  | locked
  | done
  | panicked
deriving DecidableEq

/-- Global state of `n` threads racing through the closure plus the
`dlMutex`: `mutex = some i` when thread `i` holds it. -/
structure LockState (n : Nat) where
  pc : Fin n → ThreadPC
  mutex : Option (Fin n)

/-- All threads are about to call `Download`; `dlMutex` is free. -/
def initLockState (n : Nat) : LockState n :=
  ⟨fun _ => ThreadPC.start, none⟩

/-- One interleaving step: a thread acquires the free mutex and enters the
engine invocation, or an invoking thread exits (normally or by panicking),
running the deferred `Unlock` either way. -/
inductive LockStep {n : Nat} : LockState n → LockState n → Prop where
  | acquire (s : LockState n) (i : Fin n) (h1 : s.pc i = ThreadPC.start)
      (h2 : s.mutex = none) :
      LockStep s ⟨Function.update s.pc i ThreadPC.locked, some i⟩
  | finish (s : LockState n) (i : Fin n) (h1 : s.pc i = ThreadPC.locked) :
      LockStep s ⟨Function.update s.pc i ThreadPC.done, none⟩
  | panicExit (s : LockState n) (i : Fin n) (h1 : s.pc i = ThreadPC.locked) :
      LockStep s ⟨Function.update s.pc i ThreadPC.panicked, none⟩

/-- States reachable from the initial state by interleaved steps. -/
def LockReachable (n : Nat) (s : LockState n) : Prop :=
  Relation.ReflTransGen LockStep (initLockState n) s

/-- No two distinct threads are inside the default engine invocation at the
same instant. -/
def mutualExclusion {n : Nat} (s : LockState n) : Bool :=
  decide (∀ i j : Fin n,
    s.pc i = ThreadPC.locked → s.pc j = ThreadPC.locked → i = j)

/-- The mutex is only ever held by a thread currently inside the engine
invocation: a thread that exited (successfully or by panic) does not leave
the lock held. -/
def lockNotLeakedOnExit {n : Nat} (s : LockState n) : Bool :=
  decide (∀ i : Fin n, s.mutex = some i → s.pc i = ThreadPC.locked)

/-- Key invariant of reachable states: a thread is inside the engine
invocation exactly when it holds `dlMutex`. -/
theorem lockInv_of_reachable {n : Nat} {s : LockState n}
    (h : LockReachable n s) :
    ∀ i, s.pc i = ThreadPC.locked ↔ s.mutex = some i := by
  induction h with
  | refl =>
    intro i
    simp [initLockState]
  | tail _ hstep ih =>
    cases hstep with
    | acquire j h1 h2 =>
      intro i
      rcases eq_or_ne i j with rfl | hne
      · simp [Function.update_same]
      · simp only [Function.update_noteq hne]
        constructor
        · intro hl
          exact absurd ((ih i).mp hl) (by simp [h2])
        · intro hm
          exact absurd (Option.some_injective _ hm.symm) hne
    | finish j h1 =>
      intro i
      rcases eq_or_ne i j with rfl | hne
      · simp [Function.update_same]
      · simp only [Function.update_noteq hne]
        constructor
        · intro hl
          have := ((ih i).mp hl).symm.trans ((ih j).mp h1)
          exact absurd (Option.some_injective _ this) hne
        · intro hm
          simp at hm
    | panicExit j h1 =>
      intro i
      rcases eq_or_ne i j with rfl | hne
      · simp [Function.update_same]
      · simp only [Function.update_noteq hne]
        constructor
        · intro hl
          have := ((ih i).mp hl).symm.trans ((ih j).mp h1)
          exact absurd (Option.some_injective _ this) hne
        · intro hm
          simp at hm

/-!
## Concrete engines and environments used to instantiate the theorems
-/

/-- A test download implementation that always fails with the opaque engine
error `7`. -/
def testImplErr : String → List String → Option Nat := fun _ _ => some 7

/-- Environment with the `UseGoGather` switch off, no context-attached
implementation, a succeeding Conftest downloader and a succeeding
go-gather function. -/
def envBase : DlEnv Nat Nat :=
  { useGoGather := false
    testImpl := none
    conftestDownload := fun _ _ => none
    gatherFunc := fun _ _ => (some 1, none) }

/-- Environment with the `UseGoGather` switch on and, at the same time, a
test implementation attached to the context. -/
def envGather : DlEnv Nat Nat :=
  { envBase with useGoGather := true, testImpl := some testImplErr }

/-- Environment with the switch off and a failing test implementation
attached to the context. -/
def envTestErr : DlEnv Nat Nat :=
  { envBase with testImpl := some testImplErr }

/-!
## The claims
-/

/-- C1: `isSecure` returns `false` exactly when the url begins with the
literal `http:`, or begins with an alphanumeric (possibly empty, per the
`*` in the source regular expression) scheme followed by the literal
`::http:`; every other string is classified secure. -/
theorem isSecure_false_iff (url : String) :
    isSecure url = false ↔
      ((∃ t, url.data = httpColon ++ t) ∨
        ∃ s t, url.data = s ++ wrapHttp ++ t ∧ ∀ c ∈ s, isAlnum c = true) := by
  have h1 := startsWithL_iff httpColon url.data
  have h2 := insecureMatchString_iff url.data
  cases hp : startsWithL httpColon url.data <;>
    cases hm : insecureMatchString url.data <;>
      simp_all [isSecure]

/-- C2: on an insecure source url, `Download` returns immediately with nil
metadata and the `fmt.Errorf` error whose text is exactly
`"attempting to download from insecure source: "` followed by the url;
no engine is invoked and the lock is not touched (empty event trace). -/
theorem download_insecure_rejected {M E : Type} (env : DlEnv M E)
    (destDir url : String) (showMsg : Bool) (textOf : E → String)
    (h : isSecure url = false) :
    Download env destDir url showMsg =
        (none, some (DlError.insecure url), []) ∧
      dlErrText textOf (DlError.insecure url) =
        "attempting to download from insecure source: " ++ url := by
  constructor
  · simp [Download, h]
  · rfl

/-- Witness for C2 at the url of the spec's scenario. -/
theorem download_insecure_rejected_witness :
    isSecure "http://example.com/org/repo.git" = false ∧
      (Download envBase "dir" "http://example.com/org/repo.git" false =
          (none, some (DlError.insecure "http://example.com/org/repo.git"), []) ∧
        dlErrText (fun _ : Nat => "") (DlError.insecure "http://example.com/org/repo.git") =
          "attempting to download from insecure source: " ++
            "http://example.com/org/repo.git") :=
  ⟨by decide,
    download_insecure_rejected envBase "dir" "http://example.com/org/repo.git"
      false (fun _ : Nat => "") (by decide)⟩

/-- C3: engine-selection precedence on a secure url — the `UseGoGather`
switch wins even over an attached test implementation; otherwise an
attached test implementation wins over the default Conftest engine; the
default engine runs under the lock. -/
theorem download_engine_selection {M E : Type} (env : DlEnv M E)
    (destDir url : String) (showMsg : Bool) (h : isSecure url = true) :
    (Download env destDir url showMsg).2.2 =
      if env.useGoGather then [Event.callAlternate url destDir]
      else
        match env.testImpl with
        | some _ => [Event.callTest destDir [url]]
        | none =>
            [Event.lockAcquire, Event.callDefault destDir [url],
              Event.lockRelease] := by
  simp only [Download, h]
  cases hg : env.useGoGather with
  | true => simp
  | false => cases ht : env.testImpl <;> simp

/-- Witness for C3 in the environment where both the switch is on and a
test implementation is attached: the alternate engine is the one called. -/
theorem download_engine_selection_witness :
    isSecure "https://example.com/org/repo.git" = true ∧
      (Download envGather "dir" "https://example.com/org/repo.git" false).2.2 =
        (if envGather.useGoGather then
          [Event.callAlternate "https://example.com/org/repo.git" "dir"]
        else
          match envGather.testImpl with
          | some _ => [Event.callTest "dir" ["https://example.com/org/repo.git"]]
          | none =>
              [Event.lockAcquire,
                Event.callDefault "dir" ["https://example.com/org/repo.git"],
                Event.lockRelease]) :=
  ⟨by decide,
    download_engine_selection envGather "dir" "https://example.com/org/repo.git"
      false (by decide)⟩

/-- C4: on a secure url, with a test implementation attached via
`WithDownloadImpl` and the switch off, `Download` invokes exactly that
implementation once with the destination directory and the singleton list
of the one source url, returns its error unchanged (through the identity
injection `DlError.engine`) and nil metadata. -/
theorem download_test_engine_exact {M E : Type} (env : DlEnv M E)
    (d : String → List String → Option E) (destDir url : String)
    (showMsg : Bool) (h1 : isSecure url = true)
    (h2 : env.useGoGather = false) :
    Download (WithDownloadImpl env d) destDir url showMsg =
      (none, (d destDir [url]).map DlError.engine,
        [Event.callTest destDir [url]]) := by
  simp [Download, WithDownloadImpl, h1, h2]

/-- Witness for C4: the failing test implementation is invoked with
`"dir"` and the singleton url list, and its error comes back. -/
theorem download_test_engine_exact_witness :
    isSecure "https://example.com/org/repo.git" = true ∧
      envBase.useGoGather = false ∧
      Download (WithDownloadImpl envBase testImplErr) "dir"
          "https://example.com/org/repo.git" false =
        (none,
          (testImplErr "dir" ["https://example.com/org/repo.git"]).map
            DlError.engine,
          [Event.callTest "dir" ["https://example.com/org/repo.git"]]) :=
  ⟨by decide, rfl,
    download_test_engine_exact envBase testImplErr "dir"
      "https://example.com/org/repo.git" false (by decide) rfl⟩

/-- C5 counterexample: `"://missing-scheme"` has no recognizable
well-formed scheme, yet the classifier returns secure (`true`), not
insecure as the claim states. -/
theorem isSecure_malformed_counterexample :
    isSecure "://missing-scheme" = true := by decide

/-- C5 (amended): a malformed url — one matching neither of the two
insecure patterns (`http:` literal, alphanumeric scheme plus `::http:`) —
is treated as *secure* by default policy, like a bare path. -/
theorem isSecure_malformed_default_secure (url : String)
    (h1 : ¬ ∃ t, url.data = httpColon ++ t)
    (h2 : ¬ ∃ s t, url.data = s ++ wrapHttp ++ t ∧ ∀ c ∈ s, isAlnum c = true) :
    isSecure url = true := by
  cases hp : startsWithL httpColon url.data with
  | true => exact absurd ((startsWithL_iff _ _).mp hp) h1
  | false =>
    cases hm : insecureMatchString url.data with
    | true => exact absurd ((insecureMatchString_iff _).mp hm) h2
    | false => simp [isSecure, hp, hm]

/-- Witness for the amended C5 at a scheme-less path. -/
theorem isSecure_malformed_default_secure_witness :
    isSecure "./local/path" = true :=
  isSecure_malformed_default_secure "./local/path"
    (fun h => absurd ((startsWithL_iff _ _).mpr h) (by decide))
    (fun h => absurd ((insecureMatchString_iff _).mpr h) (by decide))

/-- C6: on a secure url the selected engine is invoked exactly once (no
fallback, no retry), its error value is propagated through the identity
injection `DlError.engine` — unchanged in identity — and the error text the
caller observes is exactly the engine's own text. -/
theorem download_error_propagation {M E : Type} (env : DlEnv M E)
    (destDir url : String) (showMsg : Bool) (textOf : E → String) (e : E)
    (h : isSecure url = true) :
    ((Download env destDir url showMsg).2.2.filter isEngineCall).length = 1 ∧
      (Download env destDir url showMsg).2.1 =
        Option.map DlError.engine
          (if env.useGoGather then (env.gatherFunc url destDir).2
           else
             match env.testImpl with
             | some d => d destDir [url]
             | none => env.conftestDownload destDir [url]) ∧
      dlErrText textOf (DlError.engine e) = textOf e := by
  refine ⟨?_, ?_, rfl⟩ <;>
    · simp only [Download, h]
      cases hg : env.useGoGather with
      | true => simp [isEngineCall]
      | false => cases ht : env.testImpl <;> simp [isEngineCall]

/-- Witness for C6 with the failing attached test implementation: one
engine call, and the opaque error `7` comes back as `DlError.engine 7`. -/
theorem download_error_propagation_witness :
    isSecure "https://example.com/org/repo.git" = true ∧
      (((Download envTestErr "dir" "https://example.com/org/repo.git"
            false).2.2.filter isEngineCall).length = 1 ∧
        (Download envTestErr "dir" "https://example.com/org/repo.git"
            false).2.1 =
          Option.map DlError.engine
            (if envTestErr.useGoGather then
              (envTestErr.gatherFunc "https://example.com/org/repo.git" "dir").2
             else
               match envTestErr.testImpl with
               | some d => d "dir" ["https://example.com/org/repo.git"]
               | none =>
                   envTestErr.conftestDownload "dir"
                     ["https://example.com/org/repo.git"]) ∧
        dlErrText (fun _ : Nat => "boom") (DlError.engine 7) =
          (fun _ : Nat => "boom") 7) :=
  ⟨by decide,
    download_error_propagation envTestErr "dir"
      "https://example.com/org/repo.git" false (fun _ : Nat => "boom") 7
      (by decide)⟩

/-- C7: in every reachable interleaving of concurrent callers of the
default-engine closure, at most one thread is inside the engine invocation
at any instant, and the mutex is never left held by a thread that has
exited — normally or by panic (the deferred unlock runs on every exit
path). -/
theorem download_lock_discipline (n : Nat) (s : LockState n)
    (h : LockReachable n s) :
    mutualExclusion s = true ∧ lockNotLeakedOnExit s = true := by
  have inv := lockInv_of_reachable h
  constructor
  · simp only [mutualExclusion, decide_eq_true_eq]
    intro i j hi hj
    exact Option.some_injective _ (((inv i).mp hi).symm.trans ((inv j).mp hj))
  · simp only [lockNotLeakedOnExit, decide_eq_true_eq]
    intro i hm
    exact (inv i).mpr hm

/-- Witness for C7 at the two-thread state reached after thread `0`
acquires the mutex and enters the engine invocation. -/
theorem download_lock_discipline_witness :
    mutualExclusion
        (⟨Function.update (initLockState 2).pc 0 ThreadPC.locked, some 0⟩ :
          LockState 2) = true ∧
      lockNotLeakedOnExit
        (⟨Function.update (initLockState 2).pc 0 ThreadPC.locked, some 0⟩ :
          LockState 2) = true :=
  download_lock_discipline 2 _
    (Relation.ReflTransGen.single (LockStep.acquire (initLockState 2) 0 rfl rfl))

/-- C8: `isSecure` is total and deterministic over all strings — it always
returns one of the two booleans, and equal inputs (including the empty
string) give equal results; as a Lean function it is side-effect-free by
construction. -/
theorem isSecure_total_deterministic (u v : String) (h : u = v) :
    (isSecure u = true ∨ isSecure u = false) ∧ isSecure u = isSecure v := by
  constructor
  · cases hb : isSecure u
    · exact Or.inr rfl
    · exact Or.inl rfl
  · rw [h]

/-- Witness for C8 at the empty string. -/
theorem isSecure_total_deterministic_witness :
    (isSecure "" = true ∨ isSecure "" = false) ∧ isSecure "" = isSecure "" :=
  isSecure_total_deterministic "" "" rfl

/-- C9: the wrapped-transport pattern accepts an empty scheme — every url
that begins with the literal `::http:` is classified insecure even though
no wrapper scheme name precedes the separator. -/
theorem isSecure_false_of_wrapHttp_start (url : String)
    (h : startsWithL wrapHttp url.data = true) :
    isSecure url = false := by
  obtain ⟨t, ht⟩ := (startsWithL_iff _ _).mp h
  have him : insecureMatchString url.data = true :=
    (insecureMatchString_iff _).mpr ⟨[], t, by simpa using ht, by simp⟩
  simp [isSecure, him]

/-- Witness for C9 at `"::http://example.com/repo.git"`. -/
theorem isSecure_false_of_wrapHttp_start_witness :
    startsWithL wrapHttp "::http://example.com/repo.git".data = true ∧
      isSecure "::http://example.com/repo.git" = false :=
  ⟨by decide, isSecure_false_of_wrapHttp_start "::http://example.com/repo.git" (by decide)⟩

/-- C10: whenever the `UseGoGather` switch is off — i.e. the default or a
context-injected test engine serves the call — the metadata returned by
`Download` is `none`; only the go-gather branch can produce metadata. -/
theorem download_metadata_none_without_gather {M E : Type} (env : DlEnv M E)
    (destDir url : String) (showMsg : Bool) (h : env.useGoGather = false) :
    (Download env destDir url showMsg).1 = none := by
  simp only [Download, h]
  cases hs : isSecure url with
  | false => simp
  | true =>
    simp only [Bool.true_eq_false, if_false, if_neg (Bool.false_ne_true ∘ Eq.symm)]
    cases ht : env.testImpl <;> simp

/-- Witness for C10 with the default engine. -/
theorem download_metadata_none_without_gather_witness :
    envBase.useGoGather = false ∧
      (Download envBase "dir" "https://example.com/org/repo.git" false).1 =
        none :=
  ⟨rfl,
    download_metadata_none_without_gather envBase "dir"
      "https://example.com/org/repo.git" false rfl⟩

end ECCli.Downloader
